import Mathlib

/-!
# libPMacc `container::HostBuffer`: pointer-wrapping constructor and cross-space assignment

A shallow embedding of `src/libPMacc/include/cuSTL/container/HostBuffer.hpp`.

* `math::Size_t<T_dim>` and `PitchType = math::Size_t<T_dim-1>` are lists of naturals
  (component `i` of the C++ vector is element `i` of the list).
* `size_t` products are taken modulo `2 ^ 64`.
* Pointers are natural-number addresses; `0` is the null pointer.
* The `int` cells created by `new int` live in `World.refCells`, apart from the byte
  memories of the two memory spaces in `World.mem`.
* An instance is a value of `HostBuffer sizeofType T_dim`; the element type is represented
  by its `sizeof`, and the two indices play the role of the template parameters.
-/

namespace PMacc
namespace container

/-! ## Geometry value types -/

/-- Number of values of the 64-bit `size_t`. -/
def SIZE_T_RANGE : Nat := 2 ^ 64

/-- Product of two `size_t` values, as the machine computes it. -/
def mulSizeT (a b : Nat) : Nat := (a * b) % SIZE_T_RANGE

/-- The vector type `math::Size_t<dim>`, component `i` at list position `i`. -/
abbrev Size_t := List Nat

/-- Component accessor `x()`. -/
def Size_t.x (v : Size_t) : Nat := v.getD 0 0

/-- Component accessor `y()`. -/
def Size_t.y (v : Size_t) : Nat := v.getD 1 0

/-- Component accessor `z()`. -/
def Size_t.z (v : Size_t) : Nat := v.getD 2 0

/-- The factory `math::Size_t<dim>::create(v)`: every component equal to `v`. -/
def Size_t.create (dim v : Nat) : Size_t := List.replicate dim v

/-- The factory `PitchType::create(v)` of a `T_dim`-dimensional buffer, whose pitch type is
`math::Size_t<T_dim-1>`. -/
def PitchType.create (T_dim v : Nat) : Size_t := Size_t.create (T_dim - 1) v

/-! ## The world the buffers live in -/

/-- The flag `cudaWrapper::flags::Memcopy::Direction`. -/
inductive Direction where
  | hostToDevice
  | deviceToHost
  | hostToHost
  | deviceToDevice
  deriving DecidableEq, Repr

/-- The six arguments of one call of the transfer engine `cudaWrapper::Memcopy<T_dim>()`. -/
structure MemcopyCall where
  dest : Nat
  pitchDest : Size_t
  source : Nat
  pitchSource : Size_t
  size : Size_t
  direction : Direction
  deriving DecidableEq, Repr

/-- Byte contents of the two memory spaces, by address. -/
structure Memory where
  host : Nat → Nat
  device : Nat → Nat

/-- Everything outside the buffer objects themselves: the `int` cells obtained from
`new int` (the address of a cell is its position), the byte memories, the calls received by
the transfer engine, and the regions handed to the allocator for release. -/
structure World where
  refCells : List Int
  mem : Memory
  memcopyCalls : List MemcopyCall
  released : List Nat

/-- The data members a `HostBuffer<Type, T_dim>` inherits from `CartBuffer`:
`dataPointer`, `refCount` (`none` is the null pointer, `some a` the address of a cell),
`_size` and `pitch`. -/
structure HostBuffer (sizeofType T_dim : Nat) where
  dataPointer : Nat
  refCount : Option Nat
  _size : Size_t
  pitch : Size_t
  deriving DecidableEq, Repr

/-- Modelled from the spec: the accessor `CartBuffer::size()` (CartBuffer.hpp is not among
the sources), which yields the buffer's `size`, a SizeVector. -/
def HostBuffer.size {sizeofType T_dim : Nat} (b : HostBuffer sizeofType T_dim) : Size_t :=
  b._size

/-- The value `*refCount` of a buffer in a world, when the pointer designates a cell. -/
def HostBuffer.refCountValue {sizeofType T_dim : Nat} (b : HostBuffer sizeofType T_dim)
    (w : World) : Option Int :=
  match b.refCount with
  | none => none
  | some a => w.refCells[a]?

/-! ## The pointer-wrapping constructor -/

/-- The constructor `HostBuffer(Type* ptr, const math::Size_t<T_dim>& size, bool ownMemory,
PitchType pitch)`.  The base sub-object is default-constructed, which assigns no pitch
component; the list starts out zero-filled here and, for `T_dim ≤ 3`, every component is
overwritten by the two guarded assignments.  The new cell is appended to `refCells`. -/
def HostBuffer.fromPointer (sizeofType T_dim : Nat) (ptr : Nat) (size : Size_t)
    (ownMemory : Bool) (pitch : Size_t) (w : World) : HostBuffer sizeofType T_dim × World :=
  let p : Size_t := Size_t.create (T_dim - 1) 0
  let p : Size_t :=
    if T_dim ≥ 2 then
      p.set 0 (if pitch.getD 0 0 ≠ 0 then pitch.getD 0 0 else mulSizeT size.x sizeofType)
    else p
  let p : Size_t :=
    if T_dim = 3 then
      p.set 1 (if pitch.getD 1 0 ≠ 0 then pitch.getD 1 0 else mulSizeT (p.getD 0 0) size.y)
    else p
  ({ dataPointer := ptr, refCount := some w.refCells.length, _size := size, pitch := p },
   { w with refCells := w.refCells ++ [if ownMemory then 1 else 2] })

/-- The same constructor called without its last argument, which then takes the default
`PitchType::create(0)`. -/
def HostBuffer.fromPointerDefaultPitch (sizeofType T_dim : Nat) (ptr : Nat) (size : Size_t)
    (ownMemory : Bool) (w : World) : HostBuffer sizeofType T_dim × World :=
  HostBuffer.fromPointer sizeofType T_dim ptr size ownMemory (PitchType.create T_dim 0) w

/-! ## Collaborators of the cross-space assignment -/

/-- Modelled from the spec: the accelerator buffer collaborator (its class is not among the
sources).  It carries the device memory tag and exposes `size()`, `getDataPointer()` and
`getPitch()`; the two indices are its `type` and `dim` members, which the assignment
compares with its own at compile time. -/
structure DeviceBuffer (sizeofType T_dim : Nat) where
  dataPointer : Nat
  _size : Size_t
  pitch : Size_t
  deriving DecidableEq, Repr

/-- Accessor `size()` of the accelerator buffer. -/
def DeviceBuffer.size {sizeofType T_dim : Nat} (b : DeviceBuffer sizeofType T_dim) : Size_t :=
  b._size

/-- Accessor `getDataPointer()` of the accelerator buffer. -/
def DeviceBuffer.getDataPointer {sizeofType T_dim : Nat} (b : DeviceBuffer sizeofType T_dim) :
    Nat :=
  b.dataPointer

/-- Accessor `getPitch()` of the accelerator buffer. -/
def DeviceBuffer.getPitch {sizeofType T_dim : Nat} (b : DeviceBuffer sizeofType T_dim) :
    Size_t :=
  b.pitch

/-- The transfer engine `cudaWrapper::Memcopy<T_dim>()` applied to elements of a given
`sizeof`: Memcopy.hpp is not among the sources, so the engine is a parameter of the
assignment.  It is handed the six call arguments and acts on the byte memories. -/
abbrev Engine := (sizeofType T_dim : Nat) → MemcopyCall → Memory → Memory

/-- The exception `std::invalid_argument`; in place of the rendered message it carries the
two sizes the message is built from, `this->size()` first and `rhs.size()` second. -/
inductive Exception where
  | invalid_argument (thisSize rhsSize : Size_t)
  deriving DecidableEq, Repr

/-- What a call of the assignment leaves behind: the returned reference (the object it
designates) or the exception thrown, the state of `*this`, and the world. -/
structure AssignOutcome (sizeofType T_dim : Nat) where
  result : Except Exception (HostBuffer sizeofType T_dim)
  self : HostBuffer sizeofType T_dim
  world : World

/-! ## The cross-space assignment -/

/-- The member template `HostBuffer::operator=(const DBuffer& rhs)`, enabled for a `DBuffer`
with the device memory tag.  The two static assertions are the shared indices of `this`
and `rhs`. -/
def HostBuffer.operatorAssign {sizeofType T_dim : Nat} (engine : Engine)
    (this : HostBuffer sizeofType T_dim) (rhs : DeviceBuffer sizeofType T_dim) (w : World) :
    AssignOutcome sizeofType T_dim :=
  if rhs.size ≠ this.size then
    { result := .error (.invalid_argument this.size rhs.size), self := this, world := w }
  else
    let call : MemcopyCall :=
      { dest := this.dataPointer, pitchDest := this.pitch,
        source := rhs.getDataPointer, pitchSource := rhs.getPitch,
        size := this._size, direction := .deviceToHost }
    { result := .ok this, self := this,
      world := { w with mem := engine sizeofType T_dim call w.mem,
                        memcopyCalls := w.memcopyCalls ++ [call] } }

/-! ## Element access and a reference engine -/

/-- Modelled from the spec: the byte address of the element at index `idx` of a pitched
region (the cursor classes are not among the sources).  Successive elements along the
first dimension are `sizeofType` bytes apart, and `pitch[i]` is the distance in bytes
between successive elements along dimension `i+1`. -/
def elemAddr (sizeofType : Nat) (ptr : Nat) (pitch : Size_t) (idx : Size_t) : Nat :=
  ptr + (List.zipWith (fun i stride => i * stride) idx (sizeofType :: pitch)).sum

/-- An index is valid for a size when it has one component per dimension, each below the
extent of its dimension. -/
def ValidIndex (size idx : Size_t) : Prop := List.Forall₂ (fun i n => i < n) idx size

/-- The bytes of the element that starts at address `addr`. -/
def readElem (m : Nat → Nat) (sizeofType addr : Nat) : List Nat :=
  (List.range sizeofType).map (fun b => m (addr + b))

/-- The element `buffer[idx]` of a host buffer, read from host memory. -/
def HostBuffer.elemAt {sizeofType T_dim : Nat} (b : HostBuffer sizeofType T_dim)
    (m : Memory) (idx : Size_t) : List Nat :=
  readElem m.host sizeofType (elemAddr sizeofType b.dataPointer b.pitch idx)

/-- The element `buffer[idx]` of an accelerator buffer, read from device memory. -/
def DeviceBuffer.elemAt {sizeofType T_dim : Nat} (b : DeviceBuffer sizeofType T_dim)
    (m : Memory) (idx : Size_t) : List Nat :=
  readElem m.device sizeofType (elemAddr sizeofType b.getDataPointer b.getPitch idx)

/-- The space a call reads from. -/
def MemcopyCall.sourceSpace (c : MemcopyCall) (m : Memory) : Nat → Nat :=
  match c.direction with
  | .hostToDevice => m.host
  | .deviceToHost => m.device
  | .hostToHost => m.host
  | .deviceToDevice => m.device

/-- The space a call writes to. -/
def MemcopyCall.destSpace (c : MemcopyCall) (m : Memory) : Nat → Nat :=
  match c.direction with
  | .hostToDevice => m.device
  | .deviceToHost => m.host
  | .hostToHost => m.host
  | .deviceToDevice => m.device

/-- An engine copies faithfully according to the arguments of a call when afterwards every
element of the destination region, addressed through the destination pointer and pitch,
holds the bytes the source region held at the same index before the call. -/
def Engine.Faithful (engine : Engine) (sizeofType T_dim : Nat) (c : MemcopyCall)
    (m : Memory) : Prop :=
  ∀ idx, ValidIndex c.size idx →
    readElem (c.destSpace (engine sizeofType T_dim c m)) sizeofType
        (elemAddr sizeofType c.dest c.pitchDest idx)
      = readElem (c.sourceSpace m) sizeofType (elemAddr sizeofType c.source c.pitchSource idx)

/-- Every index of a region of the given size, in row-major order of the list positions. -/
def allIndices : Size_t → List Size_t
  | [] => [[]]
  | n :: rest => (List.range n).flatMap (fun i => (allIndices rest).map (fun t => i :: t))

/-- The byte a pitched copy leaves at address `a` of the destination space: the source byte
of the element whose destination bytes cover `a`, or the old byte where no element does. -/
def copiedByte (sizeofType : Nat) (c : MemcopyCall) (src old : Nat → Nat) (a : Nat) : Nat :=
  match (allIndices c.size).find? (fun idx =>
      decide (elemAddr sizeofType c.dest c.pitchDest idx ≤ a
        ∧ a < elemAddr sizeofType c.dest c.pitchDest idx + sizeofType)) with
  | some idx =>
      src (elemAddr sizeofType c.source c.pitchSource idx
            + (a - elemAddr sizeofType c.dest c.pitchDest idx))
  | none => old a

/-- Modelled from the spec: a transfer engine `memcopy(dst_ptr, dst_pitch, src_ptr,
src_pitch, size, direction)` (Memcopy.hpp is not among the sources) that copies every
element of the region, respecting the pitch on both sides, from the space the direction
names as source into the one it names as destination, and touches nothing else. -/
def Memcopy : Engine := fun sizeofType _ c m =>
  match c.direction with
  | .hostToDevice => { m with device := copiedByte sizeofType c m.host m.device }
  | .deviceToHost => { m with host := copiedByte sizeofType c m.device m.host }
  | .hostToHost => { m with host := copiedByte sizeofType c m.host m.host }
  | .deviceToDevice => { m with device := copiedByte sizeofType c m.device m.device }

/-! ## Shared ownership: copies and destruction -/

/-- Modelled from the spec: copy construction of a buffer (the `CartBuffer` members are not
among the sources).  The new instance shares `dataPointer`, `size`, `pitch` and the same
`refCount` cell, and increments the cell by one.  An instance whose pointer designates no
cell (an empty, moved-from one) has no count to share. -/
def HostBuffer.copyConstruct {sizeofType T_dim : Nat} (other : HostBuffer sizeofType T_dim)
    (w : World) : HostBuffer sizeofType T_dim × World :=
  match other.refCountValue w, other.refCount with
  | some v, some a => (other, { w with refCells := w.refCells.set a (v + 1) })
  | _, _ => (other, w)

/-- Modelled from the spec: destruction of a buffer (the `CartBuffer` members are not among
the sources).  It decrements the shared `refCount` by one and, when the count reaches
zero, releases the region through the allocator; otherwise the memory stays alive.  An
instance whose pointer designates no cell has no release obligation. -/
def HostBuffer.destroy {sizeofType T_dim : Nat} (b : HostBuffer sizeofType T_dim)
    (w : World) : World :=
  match b.refCountValue w, b.refCount with
  | some v, some a =>
      if v - 1 = 0 then
        { w with refCells := w.refCells.set a (v - 1),
                 released := w.released ++ [b.dataPointer] }
      else
        { w with refCells := w.refCells.set a (v - 1) }
  | _, _ => w

/-- One step in the life of the instances that alias one allocation: copy-construct a new
instance from the live instance at a position, or destroy the live instance there. -/
inductive LifeOp where
  | copy (i : Nat)
  | destroy (i : Nat)
  deriving DecidableEq, Repr

/-- The live instances together with the world. -/
structure Instances (sizeofType T_dim : Nat) where
  live : List (HostBuffer sizeofType T_dim)
  world : World

/-- Effect of one step.  A step naming a position that holds no live instance has no
instance to act on and changes nothing. -/
def LifeOp.apply {sizeofType T_dim : Nat} (op : LifeOp) (st : Instances sizeofType T_dim) :
    Instances sizeofType T_dim :=
  match op with
  | .copy i =>
      match st.live[i]? with
      | none => st
      | some b =>
          let r := b.copyConstruct st.world
          { live := st.live ++ [r.1], world := r.2 }
  | .destroy i =>
      match st.live[i]? with
      | none => st
      | some b => { live := st.live.eraseIdx i, world := b.destroy st.world }

/-- Effect of a finite sequence of steps, first step first. -/
def Instances.run {sizeofType T_dim : Nat} (st : Instances sizeofType T_dim)
    (ops : List LifeOp) : Instances sizeofType T_dim :=
  ops.foldl (fun s op => op.apply s) st

/-- A world with no cells, zeroed memories, no engine calls and no releases. -/
def World.empty : World :=
  { refCells := [], mem := { host := fun _ => 0, device := fun _ => 0 },
    memcopyCalls := [], released := [] }

/-- A world holding one `refCount` cell of value 1, zeroed host memory, and device memory
whose byte at address `a` is `a % 251`. -/
def World.sample : World :=
  { refCells := [1], mem := { host := fun _ => 0, device := fun a => a % 251 },
    memcopyCalls := [], released := [] }

/-! ## The pointer-wrapping constructor: stored geometry -/

/-- The pitch the constructor stores for a three-dimensional buffer, component by
component. -/
theorem fromPointer_pitch_dim3 (sizeofType ptr : Nat) (size : Size_t) (ownMemory : Bool)
    (pitch : Size_t) (w : World) :
    (HostBuffer.fromPointer sizeofType 3 ptr size ownMemory pitch w).1.pitch
      = [if pitch.getD 0 0 ≠ 0 then pitch.getD 0 0 else mulSizeT size.x sizeofType,
         if pitch.getD 1 0 ≠ 0 then pitch.getD 1 0
         else mulSizeT (if pitch.getD 0 0 ≠ 0 then pitch.getD 0 0
                        else mulSizeT size.x sizeofType) size.y] := by
  simp [HostBuffer.fromPointer, Size_t.create, List.replicate]

/-- C4: a 3-D buffer of size (x,y,z) built by the pointer-wrapping constructor with pitch
(0,0), or with the pitch argument omitted, has pitch (x * elementSize, x * elementSize * y),
both products taken in `size_t` arithmetic. -/
theorem fromPointer_pitch_default_dim3 (sizeofType ptr x y z : Nat) (ownMemory : Bool)
    (w : World) :
    (HostBuffer.fromPointer sizeofType 3 ptr [x, y, z] ownMemory [0, 0] w).1.pitch
        = [mulSizeT x sizeofType, mulSizeT (mulSizeT x sizeofType) y]
    ∧ (HostBuffer.fromPointerDefaultPitch sizeofType 3 ptr [x, y, z] ownMemory w).1.pitch
        = [mulSizeT x sizeofType, mulSizeT (mulSizeT x sizeofType) y]
    ∧ mulSizeT x sizeofType = (x * sizeofType) % 2 ^ 64
    ∧ mulSizeT (mulSizeT x sizeofType) y = (x * sizeofType * y) % 2 ^ 64 := by
  refine ⟨?_, ?_, rfl, ?_⟩
  · rw [fromPointer_pitch_dim3]; simp [Size_t.x, Size_t.y]
  · unfold HostBuffer.fromPointerDefaultPitch
    rw [fromPointer_pitch_dim3]; simp [Size_t.x, Size_t.y, PitchType.create, Size_t.create]
  · simp [mulSizeT, SIZE_T_RANGE, Nat.mod_mul_mod]

/-- C5: for a buffer of dimension 1, 2 or 3, every size and every explicit pitch (one
component per dimension above the first) whose components are all non-zero, the
pointer-wrapping constructor stores exactly the supplied pitch, whatever its relation to
the size. -/
theorem fromPointer_pitch_explicit (sizeofType T_dim ptr : Nat) (size : Size_t)
    (ownMemory : Bool) (pitch : Size_t) (w : World)
    (hdim : 1 ≤ T_dim ∧ T_dim ≤ 3) (hlen : pitch.length = T_dim - 1)
    (hnz : ∀ p ∈ pitch, p ≠ 0) :
    (HostBuffer.fromPointer sizeofType T_dim ptr size ownMemory pitch w).1.pitch = pitch := by
  obtain ⟨h1, h3⟩ := hdim
  have hcases : T_dim = 1 ∨ T_dim = 2 ∨ T_dim = 3 := by omega
  rcases hcases with rfl | rfl | rfl
  · match pitch, hlen with
    | [], _ => simp [HostBuffer.fromPointer, Size_t.create]
  · match pitch, hlen, hnz with
    | [p0], _, hnz =>
      have h0 : p0 ≠ 0 := hnz p0 (by simp)
      simp [HostBuffer.fromPointer, Size_t.create, List.replicate, h0]
  · match pitch, hlen, hnz with
    | [p0, p1], _, hnz =>
      have h0 : p0 ≠ 0 := hnz p0 (by simp)
      have h1 : p1 ≠ 0 := hnz p1 (by simp)
      rw [fromPointer_pitch_dim3]; simp [h0, h1]

/-- Witness of C5: size (4,4,4) with the explicit pitch (3,5), unrelated to the size. -/
theorem fromPointer_pitch_explicit_witness :
    (HostBuffer.fromPointer 4 3 4096 [4, 4, 4] true [3, 5] World.empty).1.pitch = [3, 5] :=
  fromPointer_pitch_explicit 4 3 4096 [4, 4, 4] true [3, 5] World.empty
    (by decide) (by decide) (by decide)

/-- C6: for every pointer, size and pitch the pointer-wrapping constructor stores the given
pointer and size unchanged (a null pointer included) and points `refCount` at a cell that
did not exist before, whose value is 1 when `ownMemory` is true and 2 when it is false; the
cells that existed before keep their values. -/
theorem fromPointer_refCount (sizeofType T_dim ptr : Nat) (size : Size_t) (ownMemory : Bool)
    (pitch : Size_t) (w : World) :
    (HostBuffer.fromPointer sizeofType T_dim ptr size ownMemory pitch w).1.dataPointer = ptr
    ∧ (HostBuffer.fromPointer sizeofType T_dim ptr size ownMemory pitch w).1._size = size
    ∧ (HostBuffer.fromPointer sizeofType T_dim ptr size ownMemory pitch w).1.refCount
        = some w.refCells.length
    ∧ w.refCells[w.refCells.length]? = none
    ∧ (HostBuffer.fromPointer sizeofType T_dim ptr size ownMemory pitch w).1.refCountValue
          (HostBuffer.fromPointer sizeofType T_dim ptr size ownMemory pitch w).2
        = some (if ownMemory then 1 else 2)
    ∧ (HostBuffer.fromPointer sizeofType T_dim ptr size ownMemory pitch w).2.refCells
        = w.refCells ++ [if ownMemory then 1 else 2] := by
  refine ⟨rfl, rfl, rfl, ?_, ?_, rfl⟩
  · simp
  · simp [HostBuffer.fromPointer, HostBuffer.refCountValue]

/-- C8, as stated, fails: size (4,4,4), element size 4 and the supplied pitch (16,8) give a
stored pitch with pitch[1] = 8 below pitch[0] * size.y() = 64. -/
theorem fromPointer_pitch_invariant_counterexample :
    ¬ ((HostBuffer.fromPointer 4 3 4096 [4, 4, 4] true [16, 8] World.empty).1.pitch.y
        ≥ (HostBuffer.fromPointer 4 3 4096 [4, 4, 4] true [16, 8] World.empty).1.pitch.x
            * Size_t.y [4, 4, 4]) := by
  rw [fromPointer_pitch_dim3]; decide

/-- C8, amended: for a 3-D buffer produced by the pointer-wrapping constructor the stored
pitch satisfies pitch[1] >= pitch[0] * size.y() exactly when either the caller supplied a
non-zero pitch[1] that is itself at least pitch[0] * size.y(), or the caller supplied
pitch[1] = 0 and pitch[0] * size.y() is within the range of `size_t`. -/
theorem fromPointer_pitch_invariant_iff (sizeofType ptr : Nat) (size : Size_t)
    (ownMemory : Bool) (pitch : Size_t) (w : World) :
    ((HostBuffer.fromPointer sizeofType 3 ptr size ownMemory pitch w).1.pitch.y
        ≥ (HostBuffer.fromPointer sizeofType 3 ptr size ownMemory pitch w).1.pitch.x * size.y)
    ↔ ((pitch.getD 1 0 ≠ 0
          ∧ pitch.getD 1 0
              ≥ (HostBuffer.fromPointer sizeofType 3 ptr size ownMemory pitch w).1.pitch.x
                  * size.y)
        ∨ (pitch.getD 1 0 = 0
          ∧ (HostBuffer.fromPointer sizeofType 3 ptr size ownMemory pitch w).1.pitch.x
              * size.y < 2 ^ 64)) := by
  rw [fromPointer_pitch_dim3]
  simp only [Size_t.x, Size_t.y, List.getD_cons_zero, List.getD_cons_succ]
  generalize (if pitch.getD 0 0 ≠ 0 then pitch.getD 0 0
    else mulSizeT (size.getD 0 0) sizeofType) = a
  generalize pitch.getD 1 0 = p1
  generalize size.getD 1 0 = y
  by_cases h1 : p1 = 0
  · subst h1
    simp only [ne_eq, not_true_eq_false, if_false, false_and, true_and, false_or, mulSizeT,
      SIZE_T_RANGE]
    constructor
    · intro h
      by_contra hlt
      have hmod : a * y % 2 ^ 64 < 2 ^ 64 := Nat.mod_lt _ (by norm_num)
      omega
    · intro h
      rw [Nat.mod_eq_of_lt h]
  · simp [h1]

/-- C9, as stated, fails: with the plain product, size (4,3,2) and the supplied pitch
(2^63, 0) would have to store (2^63, 3 * 2^63), but the second component is computed in
`size_t` arithmetic and the stored pitch is (2^63, 2^63). -/
theorem fromPointer_pitch_second_from_first_counterexample :
    (HostBuffer.fromPointer 4 3 4096 [4, 3, 2] false [2 ^ 63, 0] World.empty).1.pitch
        ≠ [2 ^ 63, 2 ^ 63 * 3]
    ∧ (HostBuffer.fromPointer 4 3 4096 [4, 3, 2] false [2 ^ 63, 0] World.empty).1.pitch
        = [2 ^ 63, 2 ^ 63] := by
  rw [fromPointer_pitch_dim3]
  constructor <;> decide

/-- C9, amended: for every 3-D size (x,y,z) and every supplied pitch (p0, 0) with p0
non-zero, the pointer-wrapping constructor stores pitch (p0, p0 * y mod 2^64), the product
taken in `size_t` arithmetic, which is (p0, p0 * y) whenever p0 * y is within the range of
`size_t`: the second component comes from the caller's p0, and neither x nor the element
size enters it. -/
theorem fromPointer_pitch_second_from_first (sizeofType ptr x y z p0 : Nat) (ownMemory : Bool)
    (w : World) (hp0 : p0 ≠ 0) :
    (HostBuffer.fromPointer sizeofType 3 ptr [x, y, z] ownMemory [p0, 0] w).1.pitch
        = [p0, (p0 * y) % 2 ^ 64]
    ∧ (p0 * y < 2 ^ 64 →
        (HostBuffer.fromPointer sizeofType 3 ptr [x, y, z] ownMemory [p0, 0] w).1.pitch
          = [p0, p0 * y]) := by
  have hstored : (HostBuffer.fromPointer sizeofType 3 ptr [x, y, z] ownMemory [p0, 0] w).1.pitch
      = [p0, (p0 * y) % 2 ^ 64] := by
    rw [fromPointer_pitch_dim3]; simp [hp0, Size_t.y, mulSizeT, SIZE_T_RANGE]
  refine ⟨hstored, ?_⟩
  intro hlt
  rw [hstored, Nat.mod_eq_of_lt hlt]

/-- Witness of C9: size (4,3,2) of 4-byte elements with supplied pitch (100,0) stores
(100,300), not the tight-packed (16,48). -/
theorem fromPointer_pitch_second_from_first_witness :
    (100 : Nat) ≠ 0
    ∧ (HostBuffer.fromPointer 4 3 4096 [4, 3, 2] false [100, 0] World.empty).1.pitch
        = [100, 100 * 3] :=
  ⟨by decide,
   (fromPointer_pitch_second_from_first 4 4096 4 3 2 100 false World.empty (by decide)).2
     (by norm_num)⟩

/-! ## The cross-space assignment: size check and frame -/

/-- The outcome of the assignment when the sizes differ. -/
theorem operatorAssign_of_ne {sizeofType T_dim : Nat} (engine : Engine)
    (this : HostBuffer sizeofType T_dim) (rhs : DeviceBuffer sizeofType T_dim) (w : World)
    (h : rhs.size ≠ this.size) :
    this.operatorAssign engine rhs w
      = { result := .error (.invalid_argument this.size rhs.size), self := this, world := w } := by
  unfold HostBuffer.operatorAssign
  rw [if_pos h]

/-- The outcome of the assignment when the sizes agree. -/
theorem operatorAssign_of_eq {sizeofType T_dim : Nat} (engine : Engine)
    (this : HostBuffer sizeofType T_dim) (rhs : DeviceBuffer sizeofType T_dim) (w : World)
    (h : rhs.size = this.size) :
    this.operatorAssign engine rhs w
      = { result := .ok this, self := this,
          world :=
            { w with
              mem := engine sizeofType T_dim
                { dest := this.dataPointer, pitchDest := this.pitch,
                  source := rhs.getDataPointer, pitchSource := rhs.getPitch,
                  size := this._size, direction := .deviceToHost } w.mem,
              memcopyCalls := w.memcopyCalls ++
                [{ dest := this.dataPointer, pitchDest := this.pitch,
                   source := rhs.getDataPointer, pitchSource := rhs.getPitch,
                   size := this._size, direction := .deviceToHost }] } } := by
  unfold HostBuffer.operatorAssign
  rw [if_neg (not_not.mpr h)]

/-- C1: for a host buffer and an accelerator buffer of the same element type and dimension,
the cross-space assignment throws the invalid-argument exception (carrying both sizes) if
and only if `rhs.size()` differs from `this->size()`; when the sizes are equal it throws
nothing and returns `*this`. -/
theorem operatorAssign_invalid_argument_iff {sizeofType T_dim : Nat} (engine : Engine)
    (this : HostBuffer sizeofType T_dim) (rhs : DeviceBuffer sizeofType T_dim) (w : World) :
    ((this.operatorAssign engine rhs w).result
        = .error (.invalid_argument this.size rhs.size) ↔ rhs.size ≠ this.size)
    ∧ ((∃ e, (this.operatorAssign engine rhs w).result = .error e) ↔ rhs.size ≠ this.size)
    ∧ (rhs.size = this.size → (this.operatorAssign engine rhs w).result = .ok this) := by
  by_cases h : rhs.size = this.size
  · rw [operatorAssign_of_eq engine this rhs w h]
    simp [h]
  · rw [operatorAssign_of_ne engine this rhs w h]
    simp [h]

/-- Witness of C1: equal sizes (8,8), where the assignment returns `*this`. -/
theorem operatorAssign_invalid_argument_iff_witness :
    (HostBuffer.operatorAssign Memcopy (⟨4096, some 0, [8, 8], [32]⟩ : HostBuffer 4 2)
        (⟨8192, [8, 8], [64]⟩ : DeviceBuffer 4 2) World.sample).result
      = .ok (⟨4096, some 0, [8, 8], [32]⟩ : HostBuffer 4 2) :=
  (operatorAssign_invalid_argument_iff Memcopy (⟨4096, some 0, [8, 8], [32]⟩ : HostBuffer 4 2)
    (⟨8192, [8, 8], [64]⟩ : DeviceBuffer 4 2) World.sample).2.2 rfl

/-- C2: when the sizes differ, the cross-space assignment issues no call to the transfer
engine and leaves everything as it was: the memories (hence every element of the
destination), the destination's data pointer, size, pitch and `refCount` pointer, and the
value of the `refCount` cell. -/
theorem operatorAssign_mismatch_unchanged {sizeofType T_dim : Nat} (engine : Engine)
    (this : HostBuffer sizeofType T_dim) (rhs : DeviceBuffer sizeofType T_dim) (w : World)
    (h : rhs.size ≠ this.size) :
    (this.operatorAssign engine rhs w).world.memcopyCalls = w.memcopyCalls
    ∧ (this.operatorAssign engine rhs w).world.mem = w.mem
    ∧ (∀ idx, (this.operatorAssign engine rhs w).self.elemAt
          (this.operatorAssign engine rhs w).world.mem idx = this.elemAt w.mem idx)
    ∧ (this.operatorAssign engine rhs w).self = this
    ∧ (this.operatorAssign engine rhs w).self.refCountValue
          (this.operatorAssign engine rhs w).world = this.refCountValue w
    ∧ (this.operatorAssign engine rhs w).world = w := by
  rw [operatorAssign_of_ne engine this rhs w h]
  exact ⟨rfl, rfl, fun _ => rfl, rfl, rfl, rfl⟩

/-- Witness of C2: source size (4,4,4) into destination size (4,4,2). -/
theorem operatorAssign_mismatch_unchanged_witness :
    (HostBuffer.operatorAssign Memcopy (⟨4096, some 0, [4, 4, 2], [16, 64]⟩ : HostBuffer 4 3)
        (⟨8192, [4, 4, 4], [16, 64]⟩ : DeviceBuffer 4 3) World.sample).world.memcopyCalls = []
    ∧ (HostBuffer.operatorAssign Memcopy (⟨4096, some 0, [4, 4, 2], [16, 64]⟩ : HostBuffer 4 3)
        (⟨8192, [4, 4, 4], [16, 64]⟩ : DeviceBuffer 4 3) World.sample).self
        = (⟨4096, some 0, [4, 4, 2], [16, 64]⟩ : HostBuffer 4 3) :=
  have h := operatorAssign_mismatch_unchanged Memcopy
    (⟨4096, some 0, [4, 4, 2], [16, 64]⟩ : HostBuffer 4 3)
    (⟨8192, [4, 4, 4], [16, 64]⟩ : DeviceBuffer 4 3) World.sample (by decide)
  ⟨h.1, h.2.2.2.1⟩

/-- C10: a cross-space assignment with equal sizes returns `*this` with its data pointer,
size, pitch and `refCount` pointer as before, leaves every `refCount` cell and the release
record untouched, and changes the memories only through the one engine call; with the
reference engine the device memory, where the source's elements live, is as before. -/
theorem operatorAssign_success_frame {sizeofType T_dim : Nat} (engine : Engine)
    (this : HostBuffer sizeofType T_dim) (rhs : DeviceBuffer sizeofType T_dim) (w : World)
    (h : rhs.size = this.size) :
    (this.operatorAssign engine rhs w).result = .ok this
    ∧ (this.operatorAssign engine rhs w).self = this
    ∧ (this.operatorAssign engine rhs w).world.refCells = w.refCells
    ∧ (this.operatorAssign engine rhs w).self.refCountValue
          (this.operatorAssign engine rhs w).world = this.refCountValue w
    ∧ (this.operatorAssign engine rhs w).world.released = w.released
    ∧ (this.operatorAssign engine rhs w).world.mem
        = engine sizeofType T_dim
            { dest := this.dataPointer, pitchDest := this.pitch,
              source := rhs.getDataPointer, pitchSource := rhs.getPitch,
              size := this._size, direction := .deviceToHost } w.mem
    ∧ (this.operatorAssign Memcopy rhs w).world.mem.device = w.mem.device := by
  rw [operatorAssign_of_eq engine this rhs w h, operatorAssign_of_eq Memcopy this rhs w h]
  refine ⟨rfl, rfl, rfl, ?_, rfl, rfl, rfl⟩
  simp [HostBuffer.refCountValue]

/-- Witness of C10: sizes (8,8) on both sides. -/
theorem operatorAssign_success_frame_witness :
    (HostBuffer.operatorAssign Memcopy (⟨4096, some 0, [8, 8], [32]⟩ : HostBuffer 4 2)
        (⟨8192, [8, 8], [64]⟩ : DeviceBuffer 4 2) World.sample).self
      = (⟨4096, some 0, [8, 8], [32]⟩ : HostBuffer 4 2)
    ∧ (HostBuffer.operatorAssign Memcopy (⟨4096, some 0, [8, 8], [32]⟩ : HostBuffer 4 2)
        (⟨8192, [8, 8], [64]⟩ : DeviceBuffer 4 2) World.sample).world.refCells
      = World.sample.refCells :=
  have h := operatorAssign_success_frame Memcopy (⟨4096, some 0, [8, 8], [32]⟩ : HostBuffer 4 2)
    (⟨8192, [8, 8], [64]⟩ : DeviceBuffer 4 2) World.sample rfl
  ⟨h.2.1, h.2.2.1⟩

/-! ## Shared ownership of a non-owning wrap -/

/-- One step keeps the aliasing discipline: when every live instance is the buffer `b0`,
whose cell holds the number of live instances plus one, the same is true after the step,
and the step releases nothing. -/
theorem LifeOp.apply_alias_invariant {sizeofType T_dim : Nat}
    (b0 : HostBuffer sizeofType T_dim) (a : Nat) (hb : b0.refCount = some a) (op : LifeOp)
    (st : Instances sizeofType T_dim) (hlive : ∀ b ∈ st.live, b = b0)
    (hcell : st.world.refCells[a]? = some ((st.live.length : Int) + 1)) :
    (∀ b ∈ (op.apply st).live, b = b0)
    ∧ (op.apply st).world.refCells[a]? = some (((op.apply st).live.length : Int) + 1)
    ∧ (op.apply st).world.released = st.world.released := by
  have ha : a < st.world.refCells.length := by
    by_contra hge
    rw [List.getElem?_eq_none (Nat.le_of_not_lt hge)] at hcell
    exact Option.noConfusion hcell
  cases op with
  | copy i =>
    cases hget : st.live[i]? with
    | none =>
      have hst : (LifeOp.copy i).apply st = st := by simp [LifeOp.apply, hget]
      rw [hst]
      exact ⟨hlive, hcell, rfl⟩
    | some b =>
      have hbeq : b = b0 := hlive b (List.getElem?_mem hget)
      subst hbeq
      have hval : b.refCountValue st.world = some ((st.live.length : Int) + 1) := by
        simp only [HostBuffer.refCountValue, hb]
        exact hcell
      have hst : (LifeOp.copy i).apply st
          = { live := st.live ++ [b],
              world := { st.world with
                refCells := st.world.refCells.set a ((st.live.length : Int) + 1 + 1) } } := by
        simp [LifeOp.apply, hget, HostBuffer.copyConstruct, hval, hb]
      rw [hst]
      refine ⟨?_, ?_, rfl⟩
      · intro c hc
        rcases List.mem_append.mp hc with hc | hc
        · exact hlive c hc
        · simpa using hc
      · simp [List.getElem?_set, ha]
  | destroy i =>
    cases hget : st.live[i]? with
    | none =>
      have hst : (LifeOp.destroy i).apply st = st := by simp [LifeOp.apply, hget]
      rw [hst]
      exact ⟨hlive, hcell, rfl⟩
    | some b =>
      have hbeq : b = b0 := hlive b (List.getElem?_mem hget)
      subst hbeq
      have hi : i < st.live.length := by
        by_contra hge
        rw [List.getElem?_eq_none (Nat.le_of_not_lt hge)] at hget
        exact Option.noConfusion hget
      have hval : b.refCountValue st.world = some ((st.live.length : Int) + 1) := by
        simp only [HostBuffer.refCountValue, hb]
        exact hcell
      have hnz : ¬ ((st.live.length : Int) + 1 - 1 = 0) := by omega
      have hst : (LifeOp.destroy i).apply st
          = { live := st.live.eraseIdx i,
              world := { st.world with
                refCells := st.world.refCells.set a ((st.live.length : Int) + 1 - 1) } } := by
        simp only [LifeOp.apply, hget, HostBuffer.destroy, hval, hb, if_neg hnz]
      rw [hst]
      refine ⟨?_, ?_, rfl⟩
      · intro c hc
        exact hlive c (List.mem_of_mem_eraseIdx hc)
      · have hlen : (st.live.eraseIdx i).length = st.live.length - 1 := by
          simp [List.length_eraseIdx, hi]
        have hcast : ((st.live.length - 1 : Nat) : Int) + 1 = (st.live.length : Int) + 1 - 1 := by
          omega
        simp only [List.getElem?_set, ha, if_true, hlen, hcast]

/-- A finite sequence of steps keeps the aliasing discipline and releases nothing. -/
theorem Instances.run_alias_invariant {sizeofType T_dim : Nat}
    (b0 : HostBuffer sizeofType T_dim) (a : Nat) (hb : b0.refCount = some a)
    (ops : List LifeOp) (st : Instances sizeofType T_dim) (hlive : ∀ b ∈ st.live, b = b0)
    (hcell : st.world.refCells[a]? = some ((st.live.length : Int) + 1)) :
    (∀ b ∈ (st.run ops).live, b = b0)
    ∧ (st.run ops).world.refCells[a]? = some (((st.run ops).live.length : Int) + 1)
    ∧ (st.run ops).world.released = st.world.released := by
  induction ops generalizing st with
  | nil => exact ⟨hlive, hcell, rfl⟩
  | cons op rest ih =>
    have hstep := LifeOp.apply_alias_invariant b0 a hb op st hlive hcell
    have hrest := ih (op.apply st) hstep.1 hstep.2.1
    refine ⟨hrest.1, hrest.2.1, ?_⟩
    exact hrest.2.2.trans hstep.2.2

/-- C7: for a buffer built by the pointer-wrapping constructor with `ownMemory = false`, and
for every finite sequence of copies and destructions of live instances, the shared
`refCount` equals the number of live instances plus one, so it stays at least 1, and the
release record is what it was before the constructor ran: no release of the wrapped memory
is triggered, also once no instance is left. -/
theorem fromPointer_notOwned_never_released (sizeofType T_dim ptr : Nat) (size pitch : Size_t)
    (w : World) (ops : List LifeOp) :
    (∃ v : Int,
        (HostBuffer.fromPointer sizeofType T_dim ptr size false pitch w).1.refCountValue
            (Instances.run
              { live := [(HostBuffer.fromPointer sizeofType T_dim ptr size false pitch w).1],
                world := (HostBuffer.fromPointer sizeofType T_dim ptr size false pitch w).2 }
              ops).world = some v
        ∧ 1 ≤ v
        ∧ v = ((Instances.run
              { live := [(HostBuffer.fromPointer sizeofType T_dim ptr size false pitch w).1],
                world := (HostBuffer.fromPointer sizeofType T_dim ptr size false pitch w).2 }
              ops).live.length : Int) + 1)
    ∧ (Instances.run
          { live := [(HostBuffer.fromPointer sizeofType T_dim ptr size false pitch w).1],
            world := (HostBuffer.fromPointer sizeofType T_dim ptr size false pitch w).2 }
          ops).world.released = w.released := by
  have hb : (HostBuffer.fromPointer sizeofType T_dim ptr size false pitch w).1.refCount
      = some w.refCells.length := rfl
  have hinv := Instances.run_alias_invariant
    (HostBuffer.fromPointer sizeofType T_dim ptr size false pitch w).1 w.refCells.length hb ops
    { live := [(HostBuffer.fromPointer sizeofType T_dim ptr size false pitch w).1],
      world := (HostBuffer.fromPointer sizeofType T_dim ptr size false pitch w).2 }
    (by intro b hbm; simpa using hbm)
    (by simp [HostBuffer.fromPointer])
  refine ⟨⟨_, ?_, ?_, rfl⟩, ?_⟩
  · simp only [HostBuffer.refCountValue, hb]
    exact hinv.2.1
  · omega
  · exact hinv.2.2

/-! ## The cross-space assignment: the engine call and the copied elements -/

/-- The enumeration `allIndices` lists exactly the valid indices. -/
theorem mem_allIndices (size idx : Size_t) : idx ∈ allIndices size ↔ ValidIndex size idx := by
  induction size generalizing idx with
  | nil =>
    cases idx with
    | nil => simp [allIndices, ValidIndex]
    | cons i t => simp [allIndices, ValidIndex]
  | cons n rest ih =>
    cases idx with
    | nil => simp [allIndices, ValidIndex]
    | cons i t =>
      simp only [allIndices, List.mem_flatMap, List.mem_range, List.mem_map, ValidIndex,
        List.forall₂_cons]
      constructor
      · rintro ⟨i', hi', t', ht', heq⟩
        injection heq with h1 h2
        subst h1; subst h2
        exact ⟨hi', (ih t').mp ht'⟩
      · rintro ⟨hi, ht⟩
        exact ⟨i, hi, t, (ih t).mpr ht, rfl⟩

/-- The destination space after a call of the reference engine, byte by byte. -/
theorem Memcopy_destSpace (sizeofType T_dim : Nat) (c : MemcopyCall) (m : Memory) :
    c.destSpace (Memcopy sizeofType T_dim c m)
      = copiedByte sizeofType c (c.sourceSpace m) (c.destSpace m) := by
  unfold Memcopy MemcopyCall.destSpace MemcopyCall.sourceSpace
  cases c.direction <;> rfl

/-- The reference engine copies faithfully whenever the elements of the destination region
occupy pairwise disjoint bytes. -/
theorem Memcopy_faithful (sizeofType T_dim : Nat) (c : MemcopyCall) (m : Memory)
    (hdisj : ∀ idx idx2, ValidIndex c.size idx → ValidIndex c.size idx2 →
      ∀ b b2, b < sizeofType → b2 < sizeofType →
        elemAddr sizeofType c.dest c.pitchDest idx + b
          = elemAddr sizeofType c.dest c.pitchDest idx2 + b2 → idx = idx2) :
    Engine.Faithful Memcopy sizeofType T_dim c m := by
  intro idx hidx
  rw [Memcopy_destSpace]
  unfold readElem
  apply List.map_congr_left
  intro b hb
  have hb : b < sizeofType := List.mem_range.mp hb
  unfold copiedByte
  cases hfind : (allIndices c.size).find? (fun idx2 =>
      decide (elemAddr sizeofType c.dest c.pitchDest idx2
          ≤ elemAddr sizeofType c.dest c.pitchDest idx + b
        ∧ elemAddr sizeofType c.dest c.pitchDest idx + b
          < elemAddr sizeofType c.dest c.pitchDest idx2 + sizeofType)) with
  | none =>
    exfalso
    have hnone := List.find?_eq_none.mp hfind idx ((mem_allIndices c.size idx).mpr hidx)
    apply hnone
    simp only [decide_eq_true_eq]
    omega
  | some idx2 =>
    have hp := List.find?_some hfind
    have hmem := (mem_allIndices c.size idx2).mp (List.mem_of_find?_eq_some hfind)
    simp only [decide_eq_true_eq] at hp
    have heq : idx = idx2 :=
      hdisj idx idx2 hidx hmem b
        (elemAddr sizeofType c.dest c.pitchDest idx + b
          - elemAddr sizeofType c.dest c.pitchDest idx2) hb (by omega) (by omega)
    subst heq
    simp

/-- C3: for a host buffer and an accelerator buffer of identical size, the cross-space
assignment issues exactly one engine call, with the arguments (`this->dataPointer`,
`this->pitch`, `rhs.getDataPointer()`, `rhs.getPitch()`, `this->_size`, deviceToHost), and
the memories afterwards are the engine's result; hence with an engine that copies
faithfully according to those arguments every valid index holds, in the destination after
the call, the element the source held there. -/
theorem operatorAssign_copies_elements {sizeofType T_dim : Nat} (engine : Engine)
    (this : HostBuffer sizeofType T_dim) (rhs : DeviceBuffer sizeofType T_dim) (w : World)
    (hsize : rhs.size = this.size) :
    (this.operatorAssign engine rhs w).world.memcopyCalls
        = w.memcopyCalls ++
            [{ dest := this.dataPointer, pitchDest := this.pitch,
               source := rhs.getDataPointer, pitchSource := rhs.getPitch,
               size := this.size, direction := .deviceToHost }]
    ∧ (this.operatorAssign engine rhs w).world.mem
        = engine sizeofType T_dim
            { dest := this.dataPointer, pitchDest := this.pitch,
              source := rhs.getDataPointer, pitchSource := rhs.getPitch,
              size := this.size, direction := .deviceToHost } w.mem
    ∧ (Engine.Faithful engine sizeofType T_dim
          { dest := this.dataPointer, pitchDest := this.pitch,
            source := rhs.getDataPointer, pitchSource := rhs.getPitch,
            size := this.size, direction := .deviceToHost } w.mem →
        ∀ idx, ValidIndex this.size idx →
          (this.operatorAssign engine rhs w).self.elemAt
              (this.operatorAssign engine rhs w).world.mem idx
            = rhs.elemAt w.mem idx) := by
  rw [operatorAssign_of_eq engine this rhs w hsize]
  refine ⟨rfl, rfl, ?_⟩
  intro hfaithful idx hidx
  exact hfaithful idx hidx

/-- The elements of a tightly packed 8 x 8 region of 4-byte elements occupy pairwise
disjoint bytes. -/
theorem disjoint_elements_8x8 (ptr : Nat) (idx idx2 : Size_t) (hidx : ValidIndex [8, 8] idx)
    (hidx2 : ValidIndex [8, 8] idx2) (b b2 : Nat) (hb : b < 4) (hb2 : b2 < 4)
    (heq : elemAddr 4 ptr [32] idx + b = elemAddr 4 ptr [32] idx2 + b2) : idx = idx2 := by
  unfold ValidIndex at hidx hidx2
  match idx, hidx with
  | [i, j], hidx =>
    match idx2, hidx2 with
    | [i2, j2], hidx2 =>
      simp only [List.forall₂_cons, List.forall₂_nil_left_iff, and_true] at hidx hidx2
      simp only [elemAddr, List.zipWith_cons_cons, List.zipWith_nil_left, List.sum_cons,
        List.sum_nil] at heq
      have hi : i = i2 := by omega
      have hj : j = j2 := by omega
      rw [hi, hj]

/-- Witness of C3: a tightly packed 8 x 8 host buffer of 4-byte elements receives an 8 x 8
accelerator buffer of pitch 64 through the reference engine; the element at index (3,5) is
looked at. -/
theorem operatorAssign_copies_elements_witness :
    (HostBuffer.operatorAssign Memcopy (⟨4096, some 0, [8, 8], [32]⟩ : HostBuffer 4 2)
        (⟨8192, [8, 8], [64]⟩ : DeviceBuffer 4 2) World.sample).world.memcopyCalls
      = [{ dest := 4096, pitchDest := [32], source := 8192, pitchSource := [64],
           size := [8, 8], direction := .deviceToHost }]
    ∧ (HostBuffer.operatorAssign Memcopy (⟨4096, some 0, [8, 8], [32]⟩ : HostBuffer 4 2)
            (⟨8192, [8, 8], [64]⟩ : DeviceBuffer 4 2) World.sample).self.elemAt
          (HostBuffer.operatorAssign Memcopy (⟨4096, some 0, [8, 8], [32]⟩ : HostBuffer 4 2)
            (⟨8192, [8, 8], [64]⟩ : DeviceBuffer 4 2) World.sample).world.mem [3, 5]
        = (⟨8192, [8, 8], [64]⟩ : DeviceBuffer 4 2).elemAt World.sample.mem [3, 5] :=
  have h := operatorAssign_copies_elements Memcopy
    (⟨4096, some 0, [8, 8], [32]⟩ : HostBuffer 4 2)
    (⟨8192, [8, 8], [64]⟩ : DeviceBuffer 4 2) World.sample rfl
  ⟨h.1, h.2.2
    (Memcopy_faithful 4 2 _ World.sample.mem
      (fun idx idx2 h1 h2 b b2 hb hb2 heq =>
        disjoint_elements_8x8 4096 idx idx2 h1 h2 b b2 hb hb2 heq))
    [3, 5] (List.Forall₂.cons (by decide) (List.Forall₂.cons (by decide) List.Forall₂.nil))⟩

/-! ## Layouts on which the reference engine is faithful -/

/-- A number has one decomposition into a multiple of a stride and a remainder below it. -/
theorem stride_decomposition_unique (P q r q2 r2 : Nat) (hr : r < P) (hr2 : r2 < P)
    (h : q * P + r = q2 * P + r2) : q = q2 ∧ r = r2 := by
  rcases Nat.lt_trichotomy q q2 with hlt | heq | hgt
  · have hmul : (q + 1) * P ≤ q2 * P := Nat.mul_le_mul_right P hlt
    rw [Nat.add_mul, Nat.one_mul] at hmul
    omega
  · subst heq
    exact ⟨rfl, by omega⟩
  · have hmul : (q2 + 1) * P ≤ q * P := Nat.mul_le_mul_right P hgt
    rw [Nat.add_mul, Nat.one_mul] at hmul
    omega

/-- An offset made of an index below a bound and a remainder below the stride stays below
the bound times the stride. -/
theorem offset_lt_extent (P n i r : Nat) (hi : i < n) (hr : r < P) : i * P + r < n * P := by
  have hmul : (i + 1) * P ≤ n * P := Nat.mul_le_mul_right P hi
  rw [Nat.add_mul, Nat.one_mul] at hmul
  omega

/-- In a 3-D region whose rows are at least `x * sizeofType` bytes apart and whose planes
are at least `y` rows apart, the elements occupy pairwise disjoint bytes. -/
theorem disjoint_elements_dim3 (sizeofType ptr x y z p0 p1 : Nat) (hrow : x * sizeofType ≤ p0)
    (hplane : y * p0 ≤ p1) (idx idx2 : Size_t) (hidx : ValidIndex [x, y, z] idx)
    (hidx2 : ValidIndex [x, y, z] idx2) (b b2 : Nat) (hb : b < sizeofType)
    (hb2 : b2 < sizeofType)
    (heq : elemAddr sizeofType ptr [p0, p1] idx + b
      = elemAddr sizeofType ptr [p0, p1] idx2 + b2) : idx = idx2 := by
  unfold ValidIndex at hidx hidx2
  match idx, hidx with
  | [i, j, k], hidx =>
    match idx2, hidx2 with
    | [i2, j2, k2], hidx2 =>
      simp only [List.forall₂_cons, List.forall₂_nil_left_iff, and_true] at hidx hidx2
      simp only [elemAddr, List.zipWith_cons_cons, List.zipWith_nil_left, List.sum_cons,
        List.sum_nil] at heq
      obtain ⟨hi, hj, hk⟩ := hidx
      obtain ⟨hi2, hj2, hk2⟩ := hidx2
      have hr := offset_lt_extent sizeofType x i b hi hb
      have hr2 := offset_lt_extent sizeofType x i2 b2 hi2 hb2
      have hq := offset_lt_extent p0 y j (i * sizeofType + b) hj (by omega)
      have hq2 := offset_lt_extent p0 y j2 (i2 * sizeofType + b2) hj2 (by omega)
      have hplanes := stride_decomposition_unique p1 k (j * p0 + (i * sizeofType + b)) k2
        (j2 * p0 + (i2 * sizeofType + b2)) (by omega) (by omega) (by omega)
      have hrows := stride_decomposition_unique p0 j (i * sizeofType + b) j2
        (i2 * sizeofType + b2) (by omega) (by omega) hplanes.2
      have helems := stride_decomposition_unique sizeofType i b i2 b2 hb hb2 hrows.2
      rw [helems.1, hrows.1, hplanes.1]

/-- A 3-D host buffer wrapped with the default pitch, whose plane stride
`x * sizeofType * y` is within the range of `size_t`, receives through the reference
engine every element of an accelerator buffer of the same size. -/
theorem operatorAssign_defaultPitch_dim3_copies (sizeofType ptr x y z : Nat)
    (ownMemory : Bool) (w0 w : World) (rhs : DeviceBuffer sizeofType 3)
    (hrange : x * sizeofType * y < 2 ^ 64) (hy : 0 < y) (hsize : rhs.size = [x, y, z])
    (idx : Size_t) (hidx : ValidIndex [x, y, z] idx) :
    ((HostBuffer.fromPointerDefaultPitch sizeofType 3 ptr [x, y, z] ownMemory w0).1.operatorAssign
        Memcopy rhs w).self.elemAt
      ((HostBuffer.fromPointerDefaultPitch sizeofType 3 ptr [x, y, z] ownMemory w0).1.operatorAssign
        Memcopy rhs w).world.mem idx
      = rhs.elemAt w.mem idx := by
  have hrow : x * sizeofType < 2 ^ 64 :=
    Nat.lt_of_le_of_lt (Nat.le_mul_of_pos_right _ hy) hrange
  have hm0 : mulSizeT x sizeofType = x * sizeofType := Nat.mod_eq_of_lt hrow
  have hm1 : mulSizeT (x * sizeofType) y = x * sizeofType * y := Nat.mod_eq_of_lt hrange
  have hpitch : (HostBuffer.fromPointerDefaultPitch sizeofType 3 ptr [x, y, z] ownMemory
      w0).1.pitch = [x * sizeofType, x * sizeofType * y] := by
    unfold HostBuffer.fromPointerDefaultPitch
    rw [fromPointer_pitch_dim3]
    simp [Size_t.x, Size_t.y, PitchType.create, Size_t.create, hm0, hm1]
  have hsz : (HostBuffer.fromPointerDefaultPitch sizeofType 3 ptr [x, y, z] ownMemory
      w0).1.size = [x, y, z] := rfl
  have hptr : (HostBuffer.fromPointerDefaultPitch sizeofType 3 ptr [x, y, z] ownMemory
      w0).1.dataPointer = ptr := rfl
  rw [operatorAssign_of_eq Memcopy _ rhs w (hsize.trans hsz.symm)]
  refine Memcopy_faithful sizeofType 3
    { dest := (HostBuffer.fromPointerDefaultPitch sizeofType 3 ptr [x, y, z] ownMemory
        w0).1.dataPointer,
      pitchDest := (HostBuffer.fromPointerDefaultPitch sizeofType 3 ptr [x, y, z] ownMemory
        w0).1.pitch,
      source := rhs.getDataPointer, pitchSource := rhs.getPitch,
      size := (HostBuffer.fromPointerDefaultPitch sizeofType 3 ptr [x, y, z] ownMemory
        w0).1._size,
      direction := .deviceToHost } w.mem ?_ idx hidx
  intro i1 i2 h1 h2 b b2 hb hb2 heq
  simp only [hpitch, hptr] at heq
  exact disjoint_elements_dim3 sizeofType ptr x y z (x * sizeofType) (x * sizeofType * y)
    (Nat.le_refl _) (by rw [Nat.mul_comm]) i1 i2 h1 h2 b b2 hb hb2 heq

/-! ## Boundaries of the model -/

/-- Where two elements of the destination share a byte, no engine copies faithfully: a
2 x 2 destination of 1-byte elements with row pitch 1 has the indices (1,0) and (0,1) at
the same address, while the source holds different bytes there. -/
theorem no_faithful_engine_on_overlap (engine : Engine) :
    ¬ Engine.Faithful engine 1 2
        { dest := 4096, pitchDest := [1], source := 8192, pitchSource := [2],
          size := [2, 2], direction := .deviceToHost } World.sample.mem := by
  intro hfaithful
  have h10 := hfaithful [1, 0]
    (List.Forall₂.cons (by decide) (List.Forall₂.cons (by decide) List.Forall₂.nil))
  have h01 := hfaithful [0, 1]
    (List.Forall₂.cons (by decide) (List.Forall₂.cons (by decide) List.Forall₂.nil))
  simp [readElem, elemAddr, MemcopyCall.destSpace, MemcopyCall.sourceSpace, World.sample]
    at h10 h01
  rw [h10] at h01
  exact absurd h01 (by decide)

/-- The release path is live: an owning wrap (count 1) is released when its only instance
is destroyed, while the same step on a non-owning wrap (count 2) releases nothing. -/
theorem destroy_single_instance_example :
    (Instances.run
        { live := [(HostBuffer.fromPointer 4 3 4096 [4, 4, 4] true [0, 0] World.sample).1],
          world := (HostBuffer.fromPointer 4 3 4096 [4, 4, 4] true [0, 0] World.sample).2 }
        [LifeOp.destroy 0]).world.released = [4096]
    ∧ (Instances.run
        { live := [(HostBuffer.fromPointer 4 3 4096 [4, 4, 4] false [0, 0] World.sample).1],
          world := (HostBuffer.fromPointer 4 3 4096 [4, 4, 4] false [0, 0] World.sample).2 }
        [LifeOp.destroy 0]).world.released = [] := by
  constructor <;> rfl

end container
end PMacc
